import Mathlib

/-!
Verification of the exam-paper ingestion pipeline (PDF extraction, adaptive
chunking, LLM-response sanitization, page-to-image reconciliation, and the
question storage layer).  Shallow embedding: each Lean definition translates
one Python function of the repository; theorems settle the spec claims.
-/

namespace QuizBank

/-! ## JSON values

Values produced by `json.loads` on LLM output / request bodies.  `int` and
`num` mirror the Python `int` / `float` distinction (`num` is an exact
rational; binary floating point rounding is not modelled).
-/

inductive Json where
  | null
  | bool (b : Bool)
  | int (n : Int)
  | num (q : ℚ)
  | str (s : String)
  | arr (xs : List Json)
  | obj (fields : List (String × Json))

/-- A Python `dict` with string keys and JSON values, as an association list
(in insertion order, keys unique in practice). -/
abbrev Dict := List (String × Json)

/-- `d.get(key)` / `d[key]` lookup: first matching key. -/
def dGet : Dict → String → Option Json
  | [], _ => none
  | (k, v) :: rest, key => if k = key then some v else dGet rest key

/-- `d.get(key, dflt)`. -/
def dGetD (d : Dict) (key : String) (dflt : Json) : Json :=
  (dGet d key).getD dflt

/-- `d[key] = v`: replace the value at `key`, or append the binding if the
key is absent. -/
def dSet : Dict → String → Json → Dict
  | [], key, v => [(key, v)]
  | (k, w) :: rest, key, v =>
    if k = key then (k, v) :: rest else (k, w) :: dSet rest key v

/-! ## Python coercion helpers -/

/-- The whitespace characters stripped by Python's `str.strip()`
(ASCII subset; exotic unicode spaces are not modelled). -/
def pyWsChars : List Char := [' ', '\t', '\n', '\r', '\x0b', '\x0c']

/-- Whether `str.strip()` removes the character. -/
def isPyWs (c : Char) : Bool := pyWsChars.contains c

/-- `str.strip()` on a character list. -/
def pyStripL (s : List Char) : List Char :=
  (s.dropWhile isPyWs).rdropWhile isPyWs

/-- `str.strip()`. -/
def pyStrip (s : String) : String := ⟨pyStripL s.data⟩

/-- Value of a digit string (caller guarantees all characters are digits). -/
def digitsToNat (ds : List Char) : Nat :=
  ds.foldl (fun n c => 10 * n + (c.toNat - 48)) 0

/-- Python `int(s)` for a string argument: optional surrounding whitespace,
optional sign, then a nonempty run of digits; anything else raises
`ValueError` (`none`).  Underscore digit separators are not modelled. -/
def pyIntOfString (s : List Char) : Option Int :=
  match pyStripL s with
  | [] => none
  | c :: rest =>
    let signed : Bool × List Char :=
      if c = '-' then (true, rest)
      else if c = '+' then (false, rest)
      else (false, c :: rest)
    if !signed.2.isEmpty && signed.2.all Char.isDigit then
      some (if signed.1 then -(digitsToNat signed.2 : Int) else (digitsToNat signed.2 : Int))
    else none

/-- Python `int(p)` as invoked in `map_pages_to_images`
(`src/infra/backend_app/llm_parser.py`, line 210): succeeds on ints, bools,
floats (truncation toward zero) and numeric strings; raises `ValueError` /
`TypeError` (`none`) on everything else — those are the exceptions the
`except (ValueError, TypeError)` clause swallows. -/
def pyInt : Json → Option Int
  | .int n => some n
  | .bool b => some (if b then 1 else 0)
  | .num q => some (q.num.tdiv (q.den : Int))
  | .str s => pyIntOfString s.data
  | _ => none

/-! ## `sanitize_output` (`src/infra/backend_app/llm_parser.py` 150–179)

Markdown-fence stripping is modelled on character lists.  The backtick
character and the fence token are obtained from string literals. -/

/-- The backtick character. -/
def bq : Char := "`".data.headD ' '

/-- The Markdown fence token `\x60\x60\x60`. -/
def fence : List Char := "```".data

/-- Python `s.split(sep)` for a nonempty separator: scan left to right,
cutting at each non-overlapping occurrence.  Structurally recursive on a
fuel counter (instantiated with the input length, an upper bound on the
number of scan steps). -/
def splitSeqGo (sep : List Char) : Nat → List Char → List Char → List (List Char)
  | _, [], acc => [acc.reverse]
  | 0, c :: rest, acc => [acc.reverse ++ (c :: rest)]
  | fuel + 1, c :: rest, acc =>
    if sep.isPrefixOf (c :: rest) && !sep.isEmpty then
      acc.reverse :: splitSeqGo sep fuel ((c :: rest).drop sep.length) []
    else
      splitSeqGo sep fuel rest (c :: acc)

/-- `text.split(sep)`. -/
def pySplit (s sep : List Char) : List (List Char) :=
  splitSeqGo sep s.length s []

/-- Line-boundary characters of Python `str.splitlines` other than `\n`.
`pySplitlines` below models only `\n` boundaries; theorems about it carry
the hypothesis that the text contains none of these. -/
def pyOtherLineBreaks : List Char :=
  ['\r', '\x0b', '\x0c', '\x1c', '\x1d', '\x1e', '\x85', '\u2028', '\u2029']

/-- Python `s.splitlines()` for `\n`-separated text: split on `\n`, with no
entry for a trailing newline and no entries at all for the empty string. -/
def pySplitlines (s : List Char) : List (List Char) :=
  if s.isEmpty then []
  else
    let parts := s.splitOn '\n'
    if s.getLast? = some '\n' then parts.dropLast else parts

/-- `sanitize_output(text)` (lines 150–179) on the character list: strip,
and if the text starts with a fence and splitting on the fence yields at
least three parts, take the inner part, drop its first line when the
stripped inner part starts with `json`, and strip the result. -/
def sanitizeL (s0 : List Char) : List Char :=
  let text := pyStripL s0
  let text2 :=
    if fence.isPrefixOf text then
      let parts := pySplit text fence
      if 3 ≤ parts.length then
        let t := (parts[1]?).getD []
        if "json".data.isPrefixOf (pyStripL t) then
          List.intercalate ['\n'] ((pySplitlines t).drop 1)
        else t
      else text
    else text
  pyStripL text2

/-- `sanitize_output` on strings. -/
def sanitize_output (s : String) : String := ⟨sanitizeL s.data⟩


/-! ## `map_pages_to_images` (`src/infra/backend_app/llm_parser.py` 182–221) -/

/-- The `page_to_image_map` dictionary: page number to list of image paths. -/
abbrev PageImageMap := List (Int × List String)

/-- `page_num in page_to_image_map` / `page_to_image_map[page_num]`. -/
def lookupPage : PageImageMap → Int → Option (List String)
  | [], _ => none
  | (k, v) :: rest, key => if k = key then some v else lookupPage rest key

/-- Lines 205–212: `page_numbers_raw` is coerced to a list of integers.  A
non-list value contributes nothing; list entries go through `int(p)`, and
entries raising `ValueError` / `TypeError` are skipped. -/
def normalizePageNumbers (raw : Json) : List Int :=
  match raw with
  | .arr xs => xs.filterMap pyInt
  | _ => []

/-- Lines 216–218: gather `page_to_image_map[page_num]` for every cleaned
page number present in the map. -/
def resolveImagePaths (pmap : PageImageMap) (pageNums : List Int) : List String :=
  (pageNums.filterMap (lookupPage pmap)).flatten

/-- Body of the `for q in questions` loop (lines 201–220) applied to one
question dict: clean `page_numbers`, store the cleaned list, and attach the
de-duplicated image paths.  `list(set(image_paths))` iterates a Python set in
unspecified order; it is modelled by `List.dedup`, and every claim about the
result is stated order-insensitively. -/
def map_pages_to_images_q (pmap : PageImageMap) (q : Dict) : Dict :=
  let pageNums := normalizePageNumbers (dGetD q "page_numbers" (.arr []))
  let q1 := dSet q "page_numbers" (.arr (pageNums.map .int))
  let imagePaths := resolveImagePaths pmap pageNums
  dSet q1 "page_image_paths" (.arr ((imagePaths.dedup).map .str))

/-- `map_pages_to_images(questions, page_to_image_map)`: enrich every parsed
question with its resolved image paths. -/
def map_pages_to_images (questions : List Dict) (pmap : PageImageMap) : List Dict :=
  questions.map (map_pages_to_images_q pmap)

/-! ## Adaptive chunking (`parse_file`, `src/infra/backend_app/llm_parser.py` 272–291) -/

/-- Line 277: `sum(len(p) for p in pages) / len(pages) if pages else 0`
(exact rational arithmetic stands in for Python float division). -/
def avg_page_length (pages : List String) : ℚ :=
  if pages.isEmpty then 0
  else ((pages.map String.length).sum : ℚ) / (pages.length : ℚ)

/-- Lines 278–283: chunk size from mean page length — `< 500` chars → 10
pages per chunk (sparse), `< 1500` → 5 (medium), otherwise 3 (dense). -/
def adaptive_chunk_size (pages : List String) : Nat :=
  if avg_page_length pages < 500 then 10
  else if avg_page_length pages < 1500 then 5
  else 3

/-- Loop body for `chunksOf`, structurally recursive on a fuel counter (the
fuel is instantiated with the page count, an upper bound on the number of
loop iterations for any positive chunk size). -/
def chunksOfGo (size : Nat) : Nat → List α → List (List α)
  | _, [] => []
  | 0, _ :: _ => []
  | fuel + 1, x :: xs => (x :: xs).take size :: chunksOfGo size fuel ((x :: xs).drop size)

/-- `for i in range(0, len(pages), size): pages[i:i+size]` — consecutive
groups of `size` pages, last group possibly smaller.  (`size` is always one
of 3/5/10 at call sites; a zero size would not terminate in Python either.) -/
def chunksOf (size : Nat) (l : List α) : List (List α) :=
  chunksOfGo size l.length l

/-- Lines 285–288: the page groups submitted to the LLM (their texts are
rejoined with the page-separator before the call; the grouping itself is what
the chunk-coverage claims are about). -/
def chunk_groups (pages : List String) : List (List String) :=
  chunksOf (adaptive_chunk_size pages) pages

/-- Line 287: one chunk's text, pages rejoined with the separator token. -/
def chunk_text (group : List String) : String :=
  String.intercalate "\n=== PAGE BREAK ===\n" group

/-- With enough fuel the loop's result does not depend on the exact fuel. -/
theorem chunksOfGo_fuel {α} (size : Nat) (hsize : 0 < size) :
    ∀ (f : Nat) (l : List α), l.length ≤ f → chunksOfGo size f l = chunksOfGo size l.length l := by
  intro f
  induction f using Nat.strong_induction_on with
  | _ f ih =>
    intro l hl
    match f, l with
    | 0, [] => rfl
    | _ + 1, [] => rfl
    | 0, x :: xs => simp at hl
    | f + 1, x :: xs =>
      have hdrop : ((x :: xs).drop size).length ≤ xs.length := by
        simp only [List.length_drop, List.length_cons]
        omega
      have hxs : xs.length ≤ f := by
        simpa using Nat.le_of_succ_le_succ hl
      simp only [chunksOfGo, List.length_cons]
      rw [ih f (Nat.lt_succ_self f) _ (le_trans hdrop hxs),
        ih xs.length (Nat.lt_succ_of_le hxs) _ hdrop]

/-- One unfolding of `chunksOf` on a nonempty list. -/
theorem chunksOf_cons {α} {size : Nat} (hsize : 0 < size) {l : List α} (hl : l ≠ []) :
    chunksOf size l = l.take size :: chunksOf size (l.drop size) := by
  match l with
  | x :: xs =>
    show chunksOfGo size (xs.length + 1) (x :: xs) = _
    simp only [chunksOfGo]
    rw [chunksOfGo_fuel size hsize xs.length ((x :: xs).drop size)
      (by simp only [List.length_drop, List.length_cons]; omega)]
    rfl

theorem chunksOf_nil {α} (size : Nat) : chunksOf size ([] : List α) = [] := rfl

/-- No page is dropped or duplicated: concatenating the chunks restores the
page list. -/
theorem chunksOf_flatten {α} {size : Nat} (hsize : 0 < size) (l : List α) :
    (chunksOf size l).flatten = l := by
  have H : ∀ (m : Nat) (l : List α), l.length ≤ m → (chunksOf size l).flatten = l := by
    intro m
    induction m with
    | zero =>
      intro l hl
      have : l = [] := List.eq_nil_of_length_eq_zero (Nat.le_zero.mp hl)
      subst this
      rfl
    | succ m ih =>
      intro l hl
      by_cases hnil : l = []
      · subst hnil; rfl
      · rw [chunksOf_cons hsize hnil]
        have hlen : (l.drop size).length ≤ m := by
          have : 0 < l.length := List.length_pos.mpr hnil
          simp only [List.length_drop]
          omega
        simp only [List.flatten_cons, ih _ hlen, List.take_append_drop]
  exact H l.length l le_rfl

/-- Every chunk is a nonempty group of at most `size` pages. -/
theorem chunksOf_mem_shape {α} {size : Nat} (hsize : 0 < size) (l : List α) :
    ∀ c ∈ chunksOf size l, c ≠ [] ∧ c.length ≤ size := by
  have H : ∀ (m : Nat) (l : List α), l.length ≤ m →
      ∀ c ∈ chunksOf size l, c ≠ [] ∧ c.length ≤ size := by
    intro m
    induction m with
    | zero =>
      intro l hl c hc
      have : l = [] := List.eq_nil_of_length_eq_zero (Nat.le_zero.mp hl)
      subst this
      simp [chunksOf_nil] at hc
    | succ m ih =>
      intro l hl c hc
      by_cases hnil : l = []
      · subst hnil; simp [chunksOf_nil] at hc
      · rw [chunksOf_cons hsize hnil] at hc
        rcases List.mem_cons.mp hc with hc1 | hc1
        · subst hc1
          constructor
          · have : 0 < l.length := List.length_pos.mpr hnil
            simp only [ne_eq, ← List.length_pos, List.length_take]
            omega
          · simp [List.length_take]
        · have hlen : (l.drop size).length ≤ m := by
            have : 0 < l.length := List.length_pos.mpr hnil
            simp only [List.length_drop]
            omega
          exact ih _ hlen c hc1
  exact H l.length l le_rfl

/-- Every chunk except possibly the last has exactly `size` pages. -/
theorem chunksOf_dropLast_length {α} {size : Nat} (hsize : 0 < size) (l : List α) :
    ∀ c ∈ (chunksOf size l).dropLast, c.length = size := by
  have Hnil : ∀ l' : List α, l' ≠ [] → chunksOf size l' ≠ [] := by
    intro l' h
    rw [chunksOf_cons hsize h]
    simp
  have H : ∀ (m : Nat) (l : List α), l.length ≤ m →
      ∀ c ∈ (chunksOf size l).dropLast, c.length = size := by
    intro m
    induction m with
    | zero =>
      intro l hl c hc
      have : l = [] := List.eq_nil_of_length_eq_zero (Nat.le_zero.mp hl)
      subst this
      simp [chunksOf_nil] at hc
    | succ m ih =>
      intro l hl c hc
      by_cases hnil : l = []
      · subst hnil; simp [chunksOf_nil] at hc
      · rw [chunksOf_cons hsize hnil] at hc
        by_cases hrest : l.drop size = []
        · rw [hrest, chunksOf_nil] at hc
          simp at hc
        · have hne := Hnil _ hrest
          rw [List.dropLast_cons_of_ne_nil hne] at hc
          have hlen : (l.drop size).length ≤ m := by
            have : 0 < l.length := List.length_pos.mpr hnil
            simp only [List.length_drop]
            omega
          rcases List.mem_cons.mp hc with hc1 | hc1
          · subst hc1
            have hlong : size ≤ l.length := by
              by_contra hcon
              exact hrest (List.drop_eq_nil_of_le (le_of_not_le hcon))
            simp [List.length_take, Nat.min_eq_left hlong]
          · exact ih _ hlen c hc1
  exact H l.length l le_rfl

/-! ## Per-chunk outcome accumulation (`parse_file`, `src/infra/backend_app/llm_parser.py` 293–342) -/

/-- Lines 318–319: a parsed chunk value that is a single JSON object rather
than an array is wrapped into a one-element array before being accumulated
(`all_questions.extend(parsed)` then appends its elements). -/
def toQuestionList (parsed : Json) : List Json :=
  match parsed with
  | .arr xs => xs
  | j => [j]

/-- Net outcome of one chunk's try-block (lines 299–323): `some j` when the
LLM call, sanitization, control-character repair and `json.loads` all
succeed with parsed value `j`; `none` when any exception is caught (invalid
JSON after repair, transport error, ...), in which case the chunk
contributes nothing and the loop continues. -/
abbrev ChunkOutcome := Option Json

/-- The `all_questions` list after the chunk loop: failed chunks are
skipped, each successful chunk's (wrapped) value extends the list. -/
def accumulated (outcomes : List ChunkOutcome) : List Json :=
  ((outcomes.filterMap id).map toQuestionList).flatten

/-- Line 340 lifted to JSON fragments: `map_pages_to_images` calls `q.get`
on every accumulated fragment; a non-object fragment raises
`AttributeError`, which propagates out of `parse_file` uncaught — modelled
as `none` (no artifact can be written either way). -/
def map_pages_to_images_json (pmap : PageImageMap) (qs : List Json) : Option (List Json) :=
  qs.mapM (fun j => match j with
    | .obj d => some (.obj (map_pages_to_images_q pmap d))
    | _ => none)

/-- Lines 335–342: `parse_file` returns `None` when `all_questions` is empty
(lines 335–337, regardless of how many chunks parsed successfully), and
otherwise the accumulated fragments enriched with image paths. -/
def parse_file_result (outcomes : List ChunkOutcome) (pmap : PageImageMap) : Option (List Json) :=
  if (accumulated outcomes).isEmpty then none
  else map_pages_to_images_json pmap (accumulated outcomes)

/-- Lines 384–397 of `parse_exam_papers`: the JSON artifact is written iff
`parse_file`'s return value is truthy (`if questions:` — `None` and the
empty list are both falsy). -/
def artifact_written : Option (List Json) → Bool
  | none => false
  | some qs => !qs.isEmpty

/-! ## PDF extraction (`src/infra/backend_app/pdf_extractor.py` 96–137) -/

/-- One source page as seen by the extraction loop: `text` is the page's
extracted text after the two cleaning substitutions (lines 102–106, the
regexes themselves are content-irrelevant here), and `renderOk` records
whether `page.to_image(resolution=200)` / `save` succeed for this page. -/
structure PageIn where
  text : String
  renderOk : Bool

/-- Line 126: pages are joined with the page-break separator. -/
def pageBreakSep : String := "\n\n=== PAGE BREAK ===\n\n"

/-- Lines 110–119: the image path recorded for page `i`
(`media` stands for `os.path.basename(media_dir)`). -/
def imgPath (base media : String) (i : Nat) : String :=
  media ++ "/" ++ base ++ "_page" ++ toString i ++ ".png"

/-- Line 120: the marker pair appended to page `i`'s text. -/
def pagePlaceholder (base media : String) (i : Nat) : String :=
  "[PAGE_IMAGE_SAVED: " ++ imgPath base media i ++ "] [PAGE_NUMBER: " ++ toString i ++ "]"

/-- Lines 121–123: one page's contribution to `full_text`. -/
def pageBlockText (base media : String) (p : PageIn) (i : Nat) : String :=
  pyStrip (p.text ++ "\n" ++ pagePlaceholder base media i ++ "\n")

/-- The `for i, page in enumerate(pdf.pages, start=1)` loop (lines 101–123).
The whole loop runs inside the single `try` of lines 96–137: an exception
raised while rendering any one page aborts the loop, is caught by the
document-level `except`, and nothing is written for the document (`none`).
`some blocks` is the `full_text` list on full success. -/
def extract_pages (base media : String) : List PageIn → Nat → Option (List String)
  | [], _ => some []
  | p :: rest, i =>
    if p.renderOk then
      match extract_pages base media rest (i + 1) with
      | some blocks => some (pageBlockText base media p i :: blocks)
      | none => none
    else none

/-- Lines 96–137 for one document: the text written to the output `.txt`
file, or `none` when the document failed (no file written). -/
def extract_text_and_page_images (base media : String) (pages : List PageIn) : Option String :=
  (extract_pages base media pages 1).map (String.intercalate pageBreakSep)

/-- The `full_text` blocks produced on a fully successful run. -/
def expectedBlocks (base media : String) : List PageIn → Nat → List String
  | [], _ => []
  | p :: rest, i => pageBlockText base media p i :: expectedBlocks base media rest (i + 1)

/-! ## Marker-level view of the text blob (`build_page_to_image_map`,
`src/infra/backend_app/llm_parser.py` 54–94)

The blob written by the extractor is a flat string; `build_page_to_image_map`
recovers page structure from it by splitting on the literal page-break token
and scanning two regex markers.  The blob is modelled as a token list: an
opaque `rawText` token stands for a stretch of page text (which, coming from
the PDF, contains neither the page-break token nor marker-shaped
substrings), `imgSaved`/`pageNum` for the two bracketed markers (the
page-index regex `\d+` only matches digit runs, hence a natural number), and
`pageBreak` for the separator token. -/

inductive Tok where
  | rawText (s : String)
  | imgSaved (path : String)
  | pageNum (n : Nat)
  | pageBreak
deriving DecidableEq

/-- Page `i`'s text block as tokens: its text followed by the
`[PAGE_IMAGE_SAVED: ...] [PAGE_NUMBER: i]` marker pair (lines 120–121 of
`pdf_extractor.py`). -/
def pageBlockToks (base media : String) (t : String) (i : Nat) : List Tok :=
  [.rawText t, .imgSaved (imgPath base media i), .pageNum i]

/-- The extractor loop's blocks, 1-based. -/
def rendererBlocks (base media : String) : List String → Nat → List (List Tok)
  | [], _ => []
  | t :: ts, i => pageBlockToks base media t i :: rendererBlocks base media ts (i + 1)

/-- The full marker-annotated blob for a document whose page texts are
`texts`: blocks joined by the page-break token (line 126). -/
def rendererBlob (base media : String) (texts : List String) : List Tok :=
  List.intercalate [Tok.pageBreak] (rendererBlocks base media texts 1)

/-- `re.findall(r'\[PAGE_NUMBER:\s*(\d+)\]', page_text)` over a segment. -/
def segPageNums (seg : List Tok) : List Nat :=
  seg.filterMap fun t => match t with | .pageNum n => some n | _ => none

/-- `re.findall(r'\[PAGE_IMAGE_SAVED:\s*([^\]]+)\]', page_text)` over a segment. -/
def segImgPaths (seg : List Tok) : List String :=
  seg.filterMap fun t => match t with | .imgSaved p => some p | _ => none

/-- The dictionary built by `build_page_to_image_map`, keyed by page number. -/
abbrev PageMapN := List (Nat × List String)

/-- `page_map[page_num] = img_paths` (dict assignment). -/
def pmapInsert : PageMapN → Nat → List String → PageMapN
  | [], k, v => [(k, v)]
  | (k0, v0) :: rest, k, v =>
    if k0 = k then (k0, v) :: rest else (k0, v0) :: pmapInsert rest k v

/-- Dictionary lookup in the built page map. -/
def pmapLookup : PageMapN → Nat → Option (List String)
  | [], _ => none
  | (k, v) :: rest, key => if k = key then some v else pmapLookup rest key

/-- Loop body of lines 88–93: a segment with no page-number marker
contributes nothing; otherwise the first page number maps to all image
markers of the segment (`img_paths if img_paths else []` is `img_paths`
itself). -/
def buildStep (m : PageMapN) (seg : List Tok) : PageMapN :=
  match segPageNums seg with
  | [] => m
  | n :: _ => pmapInsert m n (segImgPaths seg)

/-- `build_page_to_image_map(full_text)` (lines 54–94): split the blob on
the page-break token and fold the marker scan over the segments. -/
def build_page_to_image_map (blob : List Tok) : PageMapN :=
  (blob.splitOn Tok.pageBreak).foldl buildStep []


/-! ## JSON serialization (`json.dumps`)

Only the fact that a JSON value is rendered to some string matters to the
claims; string escaping and float formatting are not modelled. -/

mutual

def jsonDumps : Json → String
  | .null => "null"
  | .bool true => "true"
  | .bool false => "false"
  | .int n => toString n
  | .num q => toString q
  | .str s => "\"" ++ s ++ "\""
  | .arr xs => "[" ++ String.intercalate ", " (jsonDumpsList xs) ++ "]"
  | .obj kvs => "\x7b" ++ String.intercalate ", " (jsonDumpsFields kvs) ++ "\x7d"

def jsonDumpsList : List Json → List String
  | [] => []
  | j :: rest => jsonDumps j :: jsonDumpsList rest

def jsonDumpsFields : List (String × Json) → List String
  | [] => []
  | (k, v) :: rest => ("\"" ++ k ++ "\": " ++ jsonDumps v) :: jsonDumpsFields rest

end

/-- Python `float(s)` for a string: optional whitespace and sign, digits
with an optional decimal point, at least one digit overall.  Exponents,
`inf`/`nan` and underscores are not modelled. -/
def pyFloatOfString (s : List Char) : Option ℚ :=
  match pyStripL s with
  | [] => none
  | c :: rest =>
    let signed : Bool × List Char :=
      if c = '-' then (true, rest)
      else if c = '+' then (false, rest)
      else (false, c :: rest)
    let withSign : ℚ → ℚ := fun q => if signed.1 then -q else q
    match signed.2.splitOn '.' with
    | [ip] =>
      if !ip.isEmpty && ip.all Char.isDigit then some (withSign (digitsToNat ip)) else none
    | [ip, fp] =>
      if (ip.all Char.isDigit && fp.all Char.isDigit) && (!ip.isEmpty || !fp.isEmpty) then
        some (withSign ((digitsToNat ip : ℚ) + (digitsToNat fp : ℚ) / (10 ^ fp.length)))
      else none
    | _ => none

/-! ## Question storage (`src/frontend/backend/insert_questions.py` and
`src/infra/backend_app/app.py`) -/

/-- The closed question-type enum of the output schema
(`build_prompt`, `src/infra/backend_app/llm_parser.py` 134). -/
def validQuestionTypes : List String :=
  ["mcq", "mrq", "coding", "open-ended", "fill-in-the-blanks", "others"]

/-- The `questions` table: rows in insertion order plus the auto-increment
counter (`cursor.lastrowid` is the id assigned to the latest insert). -/
structure DB where
  rows : List Dict
  nextId : Int

/-- A fresh database. -/
def dbEmpty : DB := ⟨[], 1⟩

/-- Auto-increment sanity: every stored id is below the counter. -/
def dbWF (db : DB) : Prop :=
  ∀ r ∈ db.rows, ∀ n : Int, dGet r "id" = some (.int n) → n < db.nextId

/-- `INSERT` with generated id: the row is appended with the next id and
`lastrowid` is returned. -/
def db_insert (db : DB) (row : Dict) : DB × Int :=
  (⟨db.rows ++ [dSet row "id" (.int db.nextId)], db.nextId + 1⟩, db.nextId)

/-- `UPDATE questions SET <k> = <v> WHERE id = <qid>`. -/
def db_update_field (db : DB) (qid : Int) (k : String) (v : Json) : DB :=
  ⟨db.rows.map (fun r =>
      match dGet r "id" with
      | some (.int n) => if n = qid then dSet r k v else r
      | _ => r),
    db.nextId⟩

/-- The column values bound by `insert_question`
(`src/frontend/backend/insert_questions.py` 49–80): `question_base_id` is
temporarily 0, fields default via `q.get(...)`, the tag/media lists are
serialized.  `datetime.now()` timestamps are modelled as null. -/
def insert_question_row (q : Dict) (fileId : Int) : Dict :=
  [("question_base_id", Json.int 0),
   ("version_id", dGetD q "version_id" (.int 1)),
   ("file_id", Json.int fileId),
   ("question_no", dGetD q "question_no" .null),
   ("question_type", dGetD q "question_type" .null),
   ("difficulty_rating_manual", dGetD q "difficulty_rating_manual" .null),
   ("difficulty_rating_model", dGetD q "difficulty_rating_model" .null),
   ("question_stem", dGetD q "question_stem" .null),
   ("question_stem_html", dGetD q "question_stem_html" .null),
   ("concept_tags", Json.str (jsonDumps (dGetD q "concept_tags" (.arr [])))),
   ("question_media", Json.str (jsonDumps (dGetD q "question_media" (.arr [])))),
   ("last_used", dGetD q "last_used" .null),
   ("created_at", .null),
   ("updated_at", .null)]

/-- `insert_question(cursor, q, file_id)` (lines 49–86): insert the row with
`question_base_id = 0`, read `lastrowid`, then the dependent
`UPDATE questions SET question_base_id = id` keyed on that id. -/
def insert_question (db : DB) (q : Dict) (fileId : Int) : DB × Int :=
  let p := db_insert db (insert_question_row q fileId)
  (db_update_field p.1 p.2 "question_base_id" (.int p.2), p.2)

/-- `(payload.get("question_type") or "").strip()` (`app.py` 1365): a
missing, null or empty value yields `""`; a non-string truthy value would
raise `AttributeError` and is outside the model. -/
def addquestion_type (payload : Dict) : String :=
  match dGet payload "question_type" with
  | some (.str s) => pyStrip s
  | _ => ""

/-- `(payload.get("question_stem") or "").strip()` (`app.py` 1366). -/
def addquestion_stem (payload : Dict) : String :=
  match dGet payload "question_stem" with
  | some (.str s) => pyStrip s
  | _ => ""

/-- `normalize_concept_tags(val)` (`app.py` 356–384): `None` stays `None`,
lists are re-serialized, other values are serialized; for string input the
source attempts a `json.loads` round-trip and re-serializes JSON arrays —
that round-trip is not modelled, a string is stored via the fallback
`return val`. -/
def normalize_concept_tags : Option Json → Option Json
  | none => none
  | some .null => none
  | some (.arr xs) => some (.str (jsonDumps (.arr xs)))
  | some (.str s) => some (.str s)
  | some j => some (.str (jsonDumps j))

/-- `app.py` 1381–1389: `question_options` handling of `addquestion`.  The
`isinstance(str)`/`json.loads` branch is not modelled (the model covers
payloads whose options are a JSON value or absent). -/
def addquestion_options (payload : Dict) : Json :=
  match dGet payload "question_options" with
  | none => .arr []
  | some .null => .arr []
  | some j => j

/-- `app.py` 1391–1396: dict/list answers are serialized, anything else is
stored raw. -/
def addquestion_answer (payload : Dict) : Json :=
  match dGet payload "question_answer" with
  | some (.arr xs) => .str (jsonDumps (.arr xs))
  | some (.obj f) => .str (jsonDumps (.obj f))
  | some j => j
  | none => .null

/-- The column values bound by the `addquestion` insert
(`app.py` 1398–1442). -/
def addquestion_row (payload : Dict) (fileId : Int) : Dict :=
  [("question_base_id", Json.int 0),
   ("version_id", Json.int 1),
   ("file_id", Json.int fileId),
   ("question_no", dGetD payload "question_no" .null),
   ("page_numbers", Json.str (jsonDumps (.arr []))),
   ("question_type", Json.str (addquestion_type payload)),
   ("difficulty_rating_manual", dGetD payload "difficulty_rating_manual" .null),
   ("difficulty_rating_model", .null),
   ("question_stem", Json.str (addquestion_stem payload)),
   ("question_stem_html", .null),
   ("question_options", Json.str (jsonDumps (addquestion_options payload))),
   ("question_answer", addquestion_answer payload),
   ("page_image_paths", Json.str (jsonDumps (.arr []))),
   ("concept_tags", (normalize_concept_tags (dGet payload "concept_tags")).getD .null),
   ("last_used", .null),
   ("created_at", .null),
   ("updated_at", .null)]

/-- The `addquestion` endpoint (`app.py` 1302–1489), question-insertion
part: after the required-field gate on `question_type` / `question_stem`
(lines 1365–1371) the row is inserted with `question_base_id = 0` and the
dependent update sets `question_base_id` to the new row id (lines
1444–1455).  File-container resolution (lines 1339–1362) is outside the
model (`fileId` is taken as resolved). -/
def addquestion (db : DB) (payload : Dict) (fileId : Int) : Except String (DB × Int) :=
  if addquestion_type payload = "" then .error "missing_field: question_type"
  else if addquestion_stem payload = "" then .error "missing_field: question_stem"
  else
    let p := db_insert db (addquestion_row payload fileId)
    .ok (db_update_field p.1 p.2 "question_base_id" (.int p.2), p.2)

/-! ## Question editing (`update_question`, `app.py` 1101–1235) -/

/-- `app.py` 1103 (source spelling kept): the allow-list of editable
question fields.  `question_base_id` is not in it. -/
def Aallowed_question_fields_for_edit : List String :=
  ["question_stem", "concept_tags", "difficulty_rating_manual", "question_type",
   "question_options", "question_answer"]

/-- `float(x)` as used on `difficulty_rating_manual` (`app.py` 1153–1162):
`None` passes through, numbers and numeric strings coerce, anything else is
an `invalid_type` validation error. -/
def coerce_difficulty : Json → Except String Json
  | .null => .ok .null
  | .int n => .ok (.num n)
  | .num q => .ok (.num q)
  | .bool b => .ok (.num (if b then 1 else 0))
  | .str s =>
    match pyFloatOfString s.data with
    | some q => .ok (.num q)
    | none => .error "invalid_type: difficulty_rating_manual"
  | _ => .error "invalid_type: difficulty_rating_manual"

/-- `app.py` 1154–1162 applied to the filtered update dict. -/
def step_difficulty (ups : Dict) : Except String Dict :=
  match dGet ups "difficulty_rating_manual" with
  | none => .ok ups
  | some v =>
    match coerce_difficulty v with
    | .ok v2 => .ok (dSet ups "difficulty_rating_manual" v2)
    | .error e => .error e

/-- `app.py` 1165–1166: concept tags are normalised to a JSON string. -/
def step_concept (ups : Dict) : Dict :=
  match dGet ups "concept_tags" with
  | none => ups
  | some v => dSet ups "concept_tags" ((normalize_concept_tags (some v)).getD .null)

/-- `app.py` 1169–1179: lists/dicts are serialized, strings are validated
by `json.loads` (that validation is not modelled and treated as passing),
other non-null values are an `invalid_json_format` error. -/
def step_options (ups : Dict) : Except String Dict :=
  match dGet ups "question_options" with
  | none => .ok ups
  | some .null => .ok ups
  | some (.arr xs) => .ok (dSet ups "question_options" (.str (jsonDumps (.arr xs))))
  | some (.obj f) => .ok (dSet ups "question_options" (.str (jsonDumps (.obj f))))
  | some (.str _) => .ok ups
  | some _ => .error "invalid_json_format: question_options"

/-- `app.py` 1182–1184: dict/list answers are serialized. -/
def step_answer (ups : Dict) : Dict :=
  match dGet ups "question_answer" with
  | some (.arr xs) => dSet ups "question_answer" (.str (jsonDumps (.arr xs)))
  | some (.obj f) => dSet ups "question_answer" (.str (jsonDumps (.obj f)))
  | _ => ups

/-- `UPDATE questions SET k1=v1, k2=v2, ... WHERE id=...` applied to the
matched row (`app.py` 1191–1194). -/
def apply_updates (row : Dict) (ups : Dict) : Dict :=
  ups.foldl (fun r kv => dSet r kv.1 kv.2) row

/-- The questions-table part of the PATCH handler (`app.py` 1141–1195):
filter the payload to the allow-list, run the per-field normalisations, and
apply the surviving updates to the row.  (When only file-metadata keys are
present the handler updates the `files` table instead; either way the
questions row receives no update, which the caller below models
identically.) -/
def update_question_q (payload : Dict) (row : Dict) : Except String Dict :=
  let ups0 := payload.filter (fun kv => Aallowed_question_fields_for_edit.contains kv.1)
  if ups0.isEmpty then .error "no_allowed_fields"
  else
    match step_difficulty ups0 with
    | .error e => .error e
    | .ok ups1 =>
      match step_options (step_concept ups1) with
      | .error e => .error e
      | .ok ups3 => .ok (apply_updates row (step_answer ups3))

/-- One PATCH request seen from the stored row: a validation error (400)
leaves the row untouched. -/
def edit_question (payload : Dict) (row : Dict) : Dict :=
  match update_question_q payload row with
  | .ok r => r
  | .error _ => row

/-! ## Query API difficulty (`get_question`, `app.py` 650–687) -/

/-- `app.py` 656:
`difficulty_level = difficulty_manual if difficulty_manual is not None else difficulty_model` —
the effective difficulty exposed by the query API. -/
def difficulty_level (manual model : Option ℚ) : Option ℚ :=
  match manual with
  | some v => some v
  | none => model


/-- Twelve sparse pages of 300 characters each (claim C5's first scenario). -/
def pages12 : List String := List.replicate 12 ⟨List.replicate 300 'a'⟩

/-- Nine dense pages of 2000 characters each (claim C5's second scenario). -/
def pages9 : List String := List.replicate 9 ⟨List.replicate 2000 'a'⟩

theorem string_length_mk (l : List Char) : (String.mk l).length = l.length := rfl

theorem dGet_dSet_self (d : Dict) (k : String) (v : Json) :
    dGet (dSet d k v) k = some v := by
  induction d with
  | nil => simp [dSet, dGet]
  | cons kv rest ih =>
    obtain ⟨k0, v0⟩ := kv
    by_cases h : k0 = k
    · subst h; simp [dSet, dGet]
    · simp [dSet, dGet, h, ih]

theorem dGet_dSet_ne (d : Dict) {k k' : String} (h : k' ≠ k) (v : Json) :
    dGet (dSet d k v) k' = dGet d k' := by
  induction d with
  | nil =>
    simp only [dSet, dGet]
    rw [if_neg (fun hh => h (Eq.symm hh))]
  | cons kv rest ih =>
    obtain ⟨k0, v0⟩ := kv
    by_cases h0 : k0 = k
    · subst h0
      simp only [dSet, if_pos rfl, dGet]
      rw [if_neg (fun hh => h (Eq.symm hh)), if_neg (fun hh => h (Eq.symm hh))]
    · simp only [dSet, if_neg h0, dGet]
      by_cases h1 : k0 = k'
      · rw [if_pos h1, if_pos h1]
      · rw [if_neg h1, if_neg h1, ih]

theorem adaptive_chunk_size_pos (pages : List String) : 0 < adaptive_chunk_size pages := by
  unfold adaptive_chunk_size
  split_ifs <;> norm_num

/-- C5: the chunker selects chunk size 10 when the mean per-page text length
is below 500 characters, 5 when below 1500, and 3 otherwise; the chosen
grouping partitions the pages into consecutive groups of that size (last
group possibly smaller) with no page dropped or duplicated. -/
theorem claim_C5_adaptive_chunking (pages : List String) (hne : pages ≠ []) :
    (((pages.map String.length).sum : ℚ) < 500 * pages.length →
      adaptive_chunk_size pages = 10) ∧
    ((500 : ℚ) * pages.length ≤ ((pages.map String.length).sum : ℚ) →
      ((pages.map String.length).sum : ℚ) < 1500 * pages.length →
      adaptive_chunk_size pages = 5) ∧
    ((1500 : ℚ) * pages.length ≤ ((pages.map String.length).sum : ℚ) →
      adaptive_chunk_size pages = 3) ∧
    (chunk_groups pages).flatten = pages ∧
    (∀ c ∈ chunk_groups pages, c ≠ [] ∧ c.length ≤ adaptive_chunk_size pages) ∧
    (∀ c ∈ (chunk_groups pages).dropLast, c.length = adaptive_chunk_size pages) := by
  have hposn : 0 < pages.length := List.length_pos.mpr hne
  have hpos : (0 : ℚ) < (pages.length : ℚ) := by exact_mod_cast hposn
  have hemp : pages.isEmpty = false := by simp [List.isEmpty_iff, hne]
  have havg : avg_page_length pages
      = ((pages.map String.length).sum : ℚ) / (pages.length : ℚ) := by
    simp [avg_page_length, hemp]
  have h500 : avg_page_length pages < 500 ↔
      ((pages.map String.length).sum : ℚ) < 500 * pages.length := by
    rw [havg, div_lt_iff₀ hpos, mul_comm]
  have h1500 : avg_page_length pages < 1500 ↔
      ((pages.map String.length).sum : ℚ) < 1500 * pages.length := by
    rw [havg, div_lt_iff₀ hpos, mul_comm]
  refine ⟨?_, ?_, ?_, ?_, ?_, ?_⟩
  · intro h
    rw [adaptive_chunk_size, if_pos (h500.mpr h)]
  · intro hge hlt
    rw [adaptive_chunk_size, if_neg (by rw [h500]; exact not_lt.mpr hge),
      if_pos (h1500.mpr hlt)]
  · intro hge
    have h1 : (500 : ℚ) * pages.length ≤ ((pages.map String.length).sum : ℚ) :=
      le_trans (by nlinarith) hge
    rw [adaptive_chunk_size, if_neg (by rw [h500]; exact not_lt.mpr h1),
      if_neg (by rw [h1500]; exact not_lt.mpr hge)]
  · exact chunksOf_flatten (adaptive_chunk_size_pos pages) pages
  · exact chunksOf_mem_shape (adaptive_chunk_size_pos pages) pages
  · exact chunksOf_dropLast_length (adaptive_chunk_size_pos pages) pages

/-- Witness for C5: the two concrete scenarios of the claim.  A 12-page
document with mean page length 300 gets chunk size 10 and 2 chunks; a 9-page
document with mean length 2000 gets chunk size 3 and 3 chunks. -/
theorem claim_C5_adaptive_chunking_witness :
    adaptive_chunk_size pages12 = 10 ∧ (chunk_groups pages12).length = 2 ∧
    adaptive_chunk_size pages9 = 3 ∧ (chunk_groups pages9).length = 3 ∧
    (chunk_groups pages12).flatten = pages12 := by
  have h12 : pages12 ≠ [] := by simp [pages12]
  have h9 : pages9 ≠ [] := by simp [pages9]
  have hs12 : adaptive_chunk_size pages12 = 10 :=
    (claim_C5_adaptive_chunking pages12 h12).1
      (by norm_num [pages12, List.map_replicate, List.sum_replicate, string_length_mk])
  have hs9 : adaptive_chunk_size pages9 = 3 :=
    (claim_C5_adaptive_chunking pages9 h9).2.2.1
      (by norm_num [pages9, List.map_replicate, List.sum_replicate, string_length_mk])
  refine ⟨hs12, ?_, hs9, ?_, (claim_C5_adaptive_chunking pages12 h12).2.2.2.1⟩
  · rw [chunk_groups, hs12]
    rfl
  · rw [chunk_groups, hs9]
    rfl

/-- C6 (amended): reconciliation stores the coerced integer page list and
attaches, always, a de-duplicated image list whose members are exactly the
images indexed under some coercible claimed page; claimed pages absent from
the index contribute nothing and raise no error.  Entries that Python
`int()` cannot convert are discarded, while convertible non-integer entries
(numeric strings, floats, bools) are coerced and kept.  The final conjunct
is the claim's concrete scenario: a fragment claiming pages 5 and 6 with one
image each resolves to both images. -/
theorem claim_C6_reconciliation :
    (∀ (pmap : PageImageMap) (q : Dict),
      dGet (map_pages_to_images_q pmap q) "page_numbers"
        = some (.arr ((normalizePageNumbers (dGetD q "page_numbers" (.arr []))).map .int)) ∧
      ∃ paths : List String,
        dGet (map_pages_to_images_q pmap q) "page_image_paths"
          = some (.arr (paths.map .str)) ∧
        paths.Nodup ∧
        (∀ s : String, s ∈ paths ↔
          ∃ p ∈ normalizePageNumbers (dGetD q "page_numbers" (.arr [])),
            ∃ imgs, lookupPage pmap p = some imgs ∧ s ∈ imgs)) ∧
    dGet (map_pages_to_images_q [(5, ["img5.png"]), (6, ["img6.png"])]
        [("page_numbers", Json.arr [Json.int 5, Json.int 6])]) "page_image_paths"
      = some (Json.arr [Json.str "img5.png", Json.str "img6.png"]) := by
  constructor
  · intro pmap q
    constructor
    · show dGet (dSet (dSet q "page_numbers" _) "page_image_paths" _) "page_numbers" = _
      rw [dGet_dSet_ne _ (by decide), dGet_dSet_self]
    · refine ⟨(resolveImagePaths pmap
        (normalizePageNumbers (dGetD q "page_numbers" (.arr [])))).dedup, ?_, ?_, ?_⟩
      · exact dGet_dSet_self _ _ _
      · exact List.nodup_dedup _
      · intro s
        rw [List.mem_dedup]
        unfold resolveImagePaths
        rw [List.mem_flatten]
        constructor
        · rintro ⟨l, hl, hs⟩
          obtain ⟨p, hp, hlook⟩ := List.mem_filterMap.mp hl
          exact ⟨p, hp, l, hlook, hs⟩
        · rintro ⟨p, hp, imgs, hlook, hs⟩
          exact ⟨imgs, List.mem_filterMap.mpr ⟨p, hp, hlook⟩, hs⟩
  · rfl

/-- Counterexample for C6: the claim asserts that non-integer claimed page
entries are discarded, but a numeric-string entry like "6" is coerced by
`int(p)` and kept — it selects page 6's image instead of being dropped. -/
theorem claim_C6_reconciliation_cex :
    pyInt (Json.str "6") = some 6 ∧
    dGet (map_pages_to_images_q [(6, ["img6.png"])]
        [("page_numbers", Json.arr [Json.str "6"])]) "page_numbers"
      = some (Json.arr [Json.int 6]) ∧
    dGet (map_pages_to_images_q [(6, ["img6.png"])]
        [("page_numbers", Json.arr [Json.str "6"])]) "page_image_paths"
      = some (Json.arr [Json.str "img6.png"]) ∧
    Json.arr [Json.int 6] ≠ Json.arr [] := by
  refine ⟨rfl, rfl, rfl, by simp⟩

/-- C10: after reconciliation every fragment — including one whose
`page_numbers` was missing or not a list — carries a `page_numbers` field
that is a list of integers and a `page_image_paths` field that is a list,
and no other field of the fragment is modified; the list-level pass is an
element-wise map. -/
theorem claim_C10_fragment_shape (pmap : PageImageMap) (q : Dict) :
    (∃ ns : List Int, dGet (map_pages_to_images_q pmap q) "page_numbers"
      = some (.arr (ns.map .int))) ∧
    (∃ ps : List String, dGet (map_pages_to_images_q pmap q) "page_image_paths"
      = some (.arr (ps.map .str))) ∧
    (∀ k, k ≠ "page_numbers" → k ≠ "page_image_paths" →
      dGet (map_pages_to_images_q pmap q) k = dGet q k) ∧
    (dGet q "page_numbers" = none →
      dGet (map_pages_to_images_q pmap q) "page_numbers" = some (.arr [])) ∧
    (∀ v, dGet q "page_numbers" = some v → (∀ xs, v ≠ .arr xs) →
      dGet (map_pages_to_images_q pmap q) "page_numbers" = some (.arr [])) ∧
    (∀ (qs : List Dict) (i : Nat),
      (map_pages_to_images qs pmap)[i]? = qs[i]?.map (map_pages_to_images_q pmap)) := by
  have hpn : dGet (map_pages_to_images_q pmap q) "page_numbers"
      = some (.arr ((normalizePageNumbers (dGetD q "page_numbers" (.arr []))).map .int)) := by
    show dGet (dSet (dSet q "page_numbers" _) "page_image_paths" _) "page_numbers" = _
    rw [dGet_dSet_ne _ (by decide), dGet_dSet_self]
  refine ⟨⟨_, hpn⟩, ⟨_, dGet_dSet_self _ _ _⟩, ?_, ?_, ?_, ?_⟩
  · intro k h1 h2
    show dGet (dSet (dSet q "page_numbers" _) "page_image_paths" _) k = _
    rw [dGet_dSet_ne _ h2, dGet_dSet_ne _ h1]
  · intro hmiss
    rw [hpn]
    simp [dGetD, hmiss, normalizePageNumbers]
  · intro v hv hnarr
    rw [hpn]
    have : dGetD q "page_numbers" (.arr []) = v := by simp [dGetD, hv]
    rw [this]
    match v, hnarr with
    | .null, _ => rfl
    | .bool b, _ => rfl
    | .int n, _ => rfl
    | .num r, _ => rfl
    | .str s, _ => rfl
    | .obj f, _ => rfl
    | .arr xs, hnarr => exact absurd rfl (hnarr xs)
  · intro qs i
    unfold map_pages_to_images
    rw [List.getElem?_map]

/-- Witness for C10: a fragment with no `page_numbers` field at all still
comes out with integer-list page numbers, a list of image paths, and its
other fields untouched. -/
theorem claim_C10_fragment_shape_witness :
    dGet (map_pages_to_images_q [] [("question_stem", Json.str "x")]) "page_numbers"
      = some (Json.arr []) ∧
    dGet (map_pages_to_images_q [] [("question_stem", Json.str "x")]) "question_stem"
      = some (Json.str "x") := by
  constructor
  · exact (claim_C10_fragment_shape [] [("question_stem", Json.str "x")]).2.2.2.1 rfl
  · rw [(claim_C10_fragment_shape [] [("question_stem", Json.str "x")]).2.2.1
      "question_stem" (by decide) (by decide)]
    rfl

/-! ### Claim C2: artifact presence -/

theorem map_pages_to_images_json_of_objs (pmap : PageImageMap) :
    ∀ qs : List Json, (∀ j ∈ qs, ∃ d, j = Json.obj d) →
      ∃ l, map_pages_to_images_json pmap qs = some l ∧ l.length = qs.length := by
  intro qs
  induction qs with
  | nil => intro _; exact ⟨[], rfl, rfl⟩
  | cons j rest ih =>
    intro h
    obtain ⟨d, hd⟩ := h j (List.mem_cons_self j rest)
    obtain ⟨l, hl, hlen⟩ := ih (fun x hx => h x (List.mem_cons_of_mem j hx))
    subst hd
    refine ⟨Json.obj (map_pages_to_images_q pmap d) :: l, ?_, by simp [hlen]⟩
    simp only [map_pages_to_images_json, List.mapM_cons] at hl ⊢
    rw [hl]
    rfl

/-- C2 (amended): `parse_file` yields a fragment list — and the caller
writes the JSON artifact — precisely when at least one question fragment was
accumulated across the chunks; a run whose chunks all failed returns `None`,
but so does a run whose chunks succeeded while yielding zero questions, so
absence of the artifact does not distinguish "total failure" from "zero
questions found", and an artifact, when written, is never an empty array. -/
theorem claim_C2_artifact (outcomes : List ChunkOutcome) (pmap : PageImageMap)
    (hobj : ∀ j ∈ accumulated outcomes, ∃ d, j = Json.obj d) :
    (parse_file_result outcomes pmap = none ↔ accumulated outcomes = []) ∧
    (artifact_written (parse_file_result outcomes pmap) = true ↔ accumulated outcomes ≠ []) ∧
    ((∀ o ∈ outcomes, o = none) → parse_file_result outcomes pmap = none) := by
  obtain ⟨l, hl, hlen⟩ := map_pages_to_images_json_of_objs pmap _ hobj
  by_cases hemp : accumulated outcomes = []
  · refine ⟨?_, ?_, fun _ => ?_⟩ <;>
      simp [parse_file_result, hemp, artifact_written]
  · have hne : (accumulated outcomes).isEmpty = false := by
      simp [List.isEmpty_iff, hemp]
    have hres : parse_file_result outcomes pmap = some l := by
      simp only [parse_file_result, hne, Bool.false_eq_true, if_false]
      exact hl
    have hlne : l ≠ [] := by
      intro h0
      apply hemp
      apply List.eq_nil_of_length_eq_zero
      rw [← hlen, h0]
      rfl
    refine ⟨?_, ?_, ?_⟩
    · rw [hres]; simp [hemp]
    · rw [hres]; simp [artifact_written, List.isEmpty_iff, hlne, hemp]
    · intro hall
      exfalso
      apply hemp
      have : outcomes.filterMap id = [] := by
        rw [List.filterMap_eq_nil_iff]
        intro o ho
        simp [hall o ho]
      simp [accumulated, this]

/-- Witness for C2's amended theorem: one successful chunk carrying one
object fragment produces an artifact. -/
theorem claim_C2_artifact_witness :
    artifact_written (parse_file_result [some (Json.arr [Json.obj []])] []) = true := by
  have hacc : accumulated [some (Json.arr [Json.obj []])] = [Json.obj []] := rfl
  refine ((claim_C2_artifact [some (Json.arr [Json.obj []])] [] ?_).2.1).mpr ?_
  · intro j hj
    rw [hacc] at hj
    simp at hj
    exact ⟨[], hj⟩
  · rw [hacc]
    simp

/-- Counterexample for C2: a run whose single chunk parses successfully as
the empty JSON array (`[]` — chunks succeeded, zero questions found) still
returns `None` and writes no artifact, while the claim requires an artifact
containing an empty array in exactly that case. -/
theorem claim_C2_artifact_cex :
    parse_file_result [some (Json.arr [])] [] = none ∧
    artifact_written (parse_file_result [some (Json.arr [])] []) = false :=
  ⟨rfl, rfl⟩

/-! ### Claim C3: per-page rendering failure -/

theorem extract_pages_all_ok (base media : String) :
    ∀ (pages : List PageIn) (i : Nat), (∀ p ∈ pages, p.renderOk = true) →
      extract_pages base media pages i = some (expectedBlocks base media pages i) := by
  intro pages
  induction pages with
  | nil => intro i _; rfl
  | cons p rest ih =>
    intro i h
    have hp : p.renderOk = true := h p (List.mem_cons_self p rest)
    simp only [extract_pages, hp, if_true,
      ih (i + 1) (fun x hx => h x (List.mem_cons_of_mem p hx))]
    rfl

theorem extract_pages_isSome (base media : String) :
    ∀ (pages : List PageIn) (i : Nat),
      (extract_pages base media pages i).isSome = true ↔ ∀ p ∈ pages, p.renderOk = true := by
  intro pages
  induction pages with
  | nil => intro i; simp [extract_pages]
  | cons p rest ih =>
    intro i
    by_cases hp : p.renderOk = true
    · simp only [extract_pages, hp, if_true]
      constructor
      · intro hs
        intro x hx
        rcases List.mem_cons.mp hx with hx1 | hx1
        · subst hx1; exact hp
        · refine ((ih (i + 1)).mp ?_) x hx1
          rcases hrec : extract_pages base media rest (i + 1) with _ | blocks
          · rw [hrec] at hs; simp at hs
          · rfl
      · intro hall
        rw [extract_pages_all_ok base media rest (i + 1)
          (fun x hx => hall x (List.mem_cons_of_mem p hx))]
        rfl
    · simp only [extract_pages, hp, if_false]
      constructor
      · intro hs; simp at hs
      · intro hall
        exact absurd (hall p (List.mem_cons_self p rest)) hp

/-- C3 (amended): the extractor's per-document `try/except` makes any single
page's rendering failure fatal to the whole document — the text file is
written iff every page rendered, and on any failure no page (not even one
with extractable text) contributes anything.  On full success every page
contributes its text block with its marker pair. -/
theorem claim_C3_render_failure (base media : String) (pages : List PageIn) :
    ((extract_text_and_page_images base media pages).isSome = true ↔
      ∀ p ∈ pages, p.renderOk = true) ∧
    ((∀ p ∈ pages, p.renderOk = true) →
      extract_text_and_page_images base media pages
        = some (String.intercalate pageBreakSep (expectedBlocks base media pages 1))) := by
  constructor
  · have hmap : (Option.map (String.intercalate pageBreakSep)
        (extract_pages base media pages 1)).isSome
        = (extract_pages base media pages 1).isSome := by
      cases extract_pages base media pages 1 <;> rfl
    rw [extract_text_and_page_images, hmap]
    exact extract_pages_isSome base media pages 1
  · intro hall
    rw [extract_text_and_page_images, extract_pages_all_ok base media pages 1 hall]
    rfl

/-- Witness for C3's amended theorem at a concrete two-page document. -/
theorem claim_C3_render_failure_witness :
    extract_text_and_page_images "f" "m" [⟨"A", true⟩, ⟨"B", true⟩]
      = some (String.intercalate pageBreakSep
          (expectedBlocks "f" "m" [⟨"A", true⟩, ⟨"B", true⟩] 1)) :=
  (claim_C3_render_failure "f" "m" [⟨"A", true⟩, ⟨"B", true⟩]).2 (by decide)

/-- Counterexample for C3: a document whose first page fails to render while
its text "A" is extractable, and whose second page is fine.  The claim
requires page 1 to contribute "A" (with no image) and page 2 to be
processed; the code instead aborts the document and writes nothing. -/
theorem claim_C3_render_failure_cex :
    extract_text_and_page_images "f" "m" [⟨"A", false⟩, ⟨"B", true⟩] = none := rfl

/-! ### Claim C4: page-to-image map round-trip -/

theorem pmapLookup_insert_self (m : PageMapN) (k : Nat) (v : List String) :
    pmapLookup (pmapInsert m k v) k = some v := by
  induction m with
  | nil => simp [pmapInsert, pmapLookup]
  | cons kv rest ih =>
    obtain ⟨k0, v0⟩ := kv
    by_cases h : k0 = k
    · subst h; simp [pmapInsert, pmapLookup]
    · simp [pmapInsert, pmapLookup, h, ih]

theorem pmapLookup_insert_ne (m : PageMapN) {k k' : Nat} (h : k' ≠ k) (v : List String) :
    pmapLookup (pmapInsert m k v) k' = pmapLookup m k' := by
  induction m with
  | nil =>
    simp only [pmapInsert, pmapLookup]
    rw [if_neg (fun hh => h (Eq.symm hh))]
  | cons kv rest ih =>
    obtain ⟨k0, v0⟩ := kv
    by_cases h0 : k0 = k
    · subst h0
      simp only [pmapInsert, if_pos rfl, pmapLookup]
      rw [if_neg (fun hh => h (Eq.symm hh)), if_neg (fun hh => h (Eq.symm hh))]
    · simp only [pmapInsert, if_neg h0, pmapLookup]
      by_cases h1 : k0 = k'
      · rw [if_pos h1, if_pos h1]
      · rw [if_neg h1, if_neg h1, ih]

theorem rendererBlocks_no_break (base media : String) :
    ∀ (texts : List String) (i : Nat),
      ∀ b ∈ rendererBlocks base media texts i, Tok.pageBreak ∉ b := by
  intro texts
  induction texts with
  | nil => intro i b hb; simp [rendererBlocks] at hb
  | cons t ts ih =>
    intro i b hb
    rcases List.mem_cons.mp hb with hb1 | hb1
    · subst hb1
      simp [pageBlockToks]
    · exact ih (i + 1) b hb1

theorem splitOn_rendererBlob (base media : String) (texts : List String) (h : texts ≠ []) :
    (rendererBlob base media texts).splitOn Tok.pageBreak
      = rendererBlocks base media texts 1 := by
  apply List.splitOn_intercalate
  · exact rendererBlocks_no_break base media texts 1
  · match texts, h with
    | t :: ts, _ => simp [rendererBlocks]

theorem buildFold (base media : String) :
    ∀ (texts : List String) (k : Nat) (m₀ : PageMapN),
      (∀ j, k ≤ j → pmapLookup m₀ j = none) →
      ∀ i, pmapLookup ((rendererBlocks base media texts k).foldl buildStep m₀) i
        = if k ≤ i ∧ i < k + texts.length then some [imgPath base media i]
          else pmapLookup m₀ i := by
  intro texts
  induction texts with
  | nil =>
    intro k m₀ H i
    simp only [rendererBlocks, List.foldl_nil, List.length_nil]
    rw [if_neg (by omega)]
  | cons t ts ih =>
    intro k m₀ H i
    simp only [rendererBlocks, List.foldl_cons, List.length_cons]
    have hstep : buildStep m₀ (pageBlockToks base media t k)
        = pmapInsert m₀ k [imgPath base media k] := rfl
    rw [hstep]
    have H1 : ∀ j, k + 1 ≤ j →
        pmapLookup (pmapInsert m₀ k [imgPath base media k]) j = none := by
      intro j hj
      rw [pmapLookup_insert_ne _ (by omega)]
      exact H j (by omega)
    rw [ih (k + 1) _ H1 i]
    by_cases hik : i = k
    · subst hik
      rw [if_neg (by omega), if_pos (by omega), pmapLookup_insert_self]
    · by_cases hrange : k + 1 ≤ i ∧ i < k + 1 + ts.length
      · rw [if_pos hrange, if_pos (by omega)]
      · rw [if_neg hrange, pmapLookup_insert_ne _ (fun hh => hik hh), if_neg (by omega)]

/-- C4: for the marker-annotated blob the renderer produces for an N-page
document (N ≥ 1), the page-to-image map's key set is exactly {1, ..., N},
each page mapping to the image path saved for that page; and rebuilding the
map from the same blob yields the identical mapping (the construction is a
pure function of the blob). -/
theorem claim_C4_page_image_index (base media : String) (texts : List String)
    (hN : 1 ≤ texts.length) :
    (∀ i : Nat,
      (pmapLookup (build_page_to_image_map (rendererBlob base media texts)) i).isSome = true
        ↔ 1 ≤ i ∧ i ≤ texts.length) ∧
    (∀ i : Nat, 1 ≤ i → i ≤ texts.length →
      pmapLookup (build_page_to_image_map (rendererBlob base media texts)) i
        = some [imgPath base media i]) ∧
    build_page_to_image_map (rendererBlob base media texts)
      = build_page_to_image_map (rendererBlob base media texts) := by
  have hne : texts ≠ [] := by
    intro h
    rw [h] at hN
    simp at hN
  have hsplit := splitOn_rendererBlob base media texts hne
  have hfold := buildFold base media texts 1 [] (fun j _ => rfl)
  have hmain : ∀ i, pmapLookup (build_page_to_image_map (rendererBlob base media texts)) i
      = if 1 ≤ i ∧ i < 1 + texts.length then some [imgPath base media i] else none := by
    intro i
    rw [build_page_to_image_map, hsplit]
    exact hfold i
  refine ⟨?_, ?_, rfl⟩
  · intro i
    rw [hmain i]
    by_cases h : 1 ≤ i ∧ i < 1 + texts.length
    · rw [if_pos h]
      simp only [Option.isSome_some, true_iff]
      omega
    · rw [if_neg h]
      simp only [Option.isSome_none, Bool.false_eq_true, false_iff]
      omega
  · intro i h1 h2
    rw [hmain i, if_pos (by omega)]

/-- Witness for C4 at a one-page document: page 1 is a key with its saved
image, page 2 is not a key. -/
theorem claim_C4_page_image_index_witness :
    pmapLookup (build_page_to_image_map (rendererBlob "f" "m" ["T"])) 1
      = some [imgPath "f" "m" 1] ∧
    (pmapLookup (build_page_to_image_map (rendererBlob "f" "m" ["T"])) 2).isSome = false := by
  constructor
  · exact (claim_C4_page_image_index "f" "m" ["T"] (by decide)).2.1 1 (by decide) (by decide)
  · have h := (claim_C4_page_image_index "f" "m" ["T"] (by decide)).1 2
    simp at h
    simpa using h

/-! ### Claims C1 and C7: persistence of type and base identity -/

theorem db_update_after_insert (db : DB) (row : Dict) (k : String) (hwf : dbWF db) :
    (db_update_field (db_insert db row).1 (db_insert db row).2 k
        (Json.int (db_insert db row).2)).rows
      = db.rows ++ [dSet (dSet row "id" (Json.int db.nextId)) k (Json.int db.nextId)] := by
  simp only [db_insert, db_update_field, List.map_append, List.map_cons, List.map_nil]
  congr 1
  · have hold : ∀ r0 ∈ db.rows,
        (match dGet r0 "id" with
          | some (.int n) => if n = db.nextId then dSet r0 k (Json.int db.nextId) else r0
          | _ => r0) = id r0 := by
      intro r0 hr0
      cases hid : dGet r0 "id" with
      | none => rfl
      | some v =>
        cases v with
        | int n =>
          have hlt : n < db.nextId := hwf r0 hr0 n hid
          simp only [id]
          rw [if_neg (by omega)]
        | null => rfl
        | bool b => rfl
        | num q => rfl
        | str s => rfl
        | arr xs => rfl
        | obj f => rfl
    rw [List.map_congr_left hold, List.map_id]
  · rw [dGet_dSet_self]
    simp

theorem dGet_apply_updates_of_ne (K : String) :
    ∀ (ups : Dict) (row : Dict), (∀ kv ∈ ups, kv.1 ≠ K) →
      dGet (apply_updates row ups) K = dGet row K := by
  intro ups
  induction ups with
  | nil => intro row _; rfl
  | cons kv rest ih =>
    intro row h
    show dGet (apply_updates (dSet row kv.1 kv.2) rest) K = _
    rw [ih _ (fun x hx => h x (List.mem_cons_of_mem kv hx)),
      dGet_dSet_ne _ (fun hh => h kv (List.mem_cons_self kv rest) hh.symm)]

theorem dSet_keys {P : String → Prop} :
    ∀ (d : Dict), (∀ kv ∈ d, P kv.1) → ∀ (k : String) (v : Json), P k →
      ∀ kv ∈ dSet d k v, P kv.1 := by
  intro d
  induction d with
  | nil =>
    intro _ k v hk kv hkv
    simp only [dSet, List.mem_singleton] at hkv
    subst hkv
    exact hk
  | cons kv0 rest ih =>
    intro hd k v hk kv hkv
    obtain ⟨k0, v0⟩ := kv0
    by_cases h0 : k0 = k
    · subst h0
      simp only [dSet, if_pos rfl] at hkv
      rcases List.mem_cons.mp hkv with h1 | h1
      · subst h1; exact hd (k0, v0) (List.mem_cons_self _ _)
      · exact hd kv (List.mem_cons_of_mem _ h1)
    · simp only [dSet, if_neg h0] at hkv
      rcases List.mem_cons.mp hkv with h1 | h1
      · subst h1; exact hd (k0, v0) (List.mem_cons_self _ _)
      · exact ih (fun x hx => hd x (List.mem_cons_of_mem _ hx)) k v hk kv h1

theorem step_difficulty_keys {ups ups1 : Dict} (h : step_difficulty ups = .ok ups1)
    (hk : ∀ kv ∈ ups, kv.1 ∈ Aallowed_question_fields_for_edit) :
    ∀ kv ∈ ups1, kv.1 ∈ Aallowed_question_fields_for_edit := by
  unfold step_difficulty at h
  split at h
  · cases h; exact hk
  · split at h
    · cases h; exact dSet_keys ups hk _ _ (by decide)
    · exact Except.noConfusion h

theorem step_concept_keys {ups : Dict}
    (hk : ∀ kv ∈ ups, kv.1 ∈ Aallowed_question_fields_for_edit) :
    ∀ kv ∈ step_concept ups, kv.1 ∈ Aallowed_question_fields_for_edit := by
  unfold step_concept
  split
  · exact hk
  · exact dSet_keys ups hk _ _ (by decide)

theorem step_options_keys {ups ups1 : Dict} (h : step_options ups = .ok ups1)
    (hk : ∀ kv ∈ ups, kv.1 ∈ Aallowed_question_fields_for_edit) :
    ∀ kv ∈ ups1, kv.1 ∈ Aallowed_question_fields_for_edit := by
  unfold step_options at h
  split at h
  · cases h; exact hk
  · cases h; exact hk
  · cases h; exact dSet_keys ups hk _ _ (by decide)
  · cases h; exact dSet_keys ups hk _ _ (by decide)
  · cases h; exact hk
  · exact Except.noConfusion h

theorem step_answer_keys {ups : Dict}
    (hk : ∀ kv ∈ ups, kv.1 ∈ Aallowed_question_fields_for_edit) :
    ∀ kv ∈ step_answer ups, kv.1 ∈ Aallowed_question_fields_for_edit := by
  unfold step_answer
  split
  · exact dSet_keys ups hk _ _ (by decide)
  · exact dSet_keys ups hk _ _ (by decide)
  · exact hk

theorem update_question_q_ok_base {payload row out : Dict}
    (h : update_question_q payload row = .ok out) :
    dGet out "question_base_id" = dGet row "question_base_id" := by
  simp only [update_question_q] at h
  split at h
  · exact Except.noConfusion h
  · split at h
    · exact Except.noConfusion h
    · rename_i ups1 hd
      split at h
      · exact Except.noConfusion h
      · rename_i ups3 ho
        cases h
        have hk0 : ∀ kv ∈ payload.filter
            (fun kv => Aallowed_question_fields_for_edit.contains kv.1),
            kv.1 ∈ Aallowed_question_fields_for_edit := by
          intro kv hkv
          exact List.mem_of_elem_eq_true (List.mem_filter.mp hkv).2
        have hk3 : ∀ kv ∈ step_answer ups3, kv.1 ∈ Aallowed_question_fields_for_edit :=
          step_answer_keys (step_options_keys ho (step_concept_keys (step_difficulty_keys hd hk0)))
        apply dGet_apply_updates_of_ne
        intro kv hkv heq
        have hmem := hk3 kv hkv
        rw [heq] at hmem
        exact absurd hmem (by decide)

theorem edit_question_base (payload row : Dict) :
    dGet (edit_question payload row) "question_base_id"
      = dGet row "question_base_id" := by
  unfold edit_question
  cases h : update_question_q payload row with
  | ok r => exact update_question_q_ok_base h
  | error e => rfl

/-- C7: a question created by the ingestion writer (`insert_question`) or by
the `addquestion` endpoint ends up, immediately after the two-step creation,
with `question_base_id` equal to its own row id (and pre-existing rows are
untouched); and no sequence of PATCH edits ever changes `question_base_id`,
since the field is outside the edit allow-list. -/
theorem claim_C7_base_identity (db : DB) (q payload : Dict) (fid : Int) (hwf : dbWF db) :
    (∃ r ∈ (insert_question db q fid).1.rows,
      dGet r "id" = some (Json.int (insert_question db q fid).2) ∧
      dGet r "question_base_id" = some (Json.int (insert_question db q fid).2)) ∧
    (∀ r0 ∈ db.rows, r0 ∈ (insert_question db q fid).1.rows) ∧
    (addquestion_type payload ≠ "" → addquestion_stem payload ≠ "" →
      ∃ db2 qid, addquestion db payload fid = Except.ok (db2, qid) ∧
        ∃ r ∈ db2.rows, dGet r "id" = some (Json.int qid) ∧
          dGet r "question_base_id" = some (Json.int qid)) ∧
    (∀ (payloads : List Dict) (row : Dict),
      dGet (payloads.foldl (fun r p => edit_question p r) row) "question_base_id"
        = dGet row "question_base_id") := by
  have hrows := db_update_after_insert db (insert_question_row q fid)
    "question_base_id" hwf
  refine ⟨?_, ?_, ?_, ?_⟩
  · refine ⟨dSet (dSet (insert_question_row q fid) "id" (Json.int db.nextId))
      "question_base_id" (Json.int db.nextId), ?_, ?_, ?_⟩
    · show _ ∈ (db_update_field _ _ _ _).rows
      rw [hrows]
      exact List.mem_append_right _ (List.mem_singleton.mpr rfl)
    · rw [dGet_dSet_ne _ (by decide), dGet_dSet_self]
      rfl
    · exact dGet_dSet_self _ _ _
  · intro r0 hr0
    show r0 ∈ (db_update_field _ _ _ _).rows
    rw [hrows]
    exact List.mem_append_left _ hr0
  · intro h1 h2
    refine ⟨db_update_field (db_insert db (addquestion_row payload fid)).1
        (db_insert db (addquestion_row payload fid)).2 "question_base_id"
        (Json.int (db_insert db (addquestion_row payload fid)).2),
      db.nextId, ?_, ?_⟩
    · rw [addquestion, if_neg h1, if_neg h2]
      rfl
    · have hrows2 := db_update_after_insert db (addquestion_row payload fid)
        "question_base_id" hwf
      refine ⟨dSet (dSet (addquestion_row payload fid) "id" (Json.int db.nextId))
        "question_base_id" (Json.int db.nextId), ?_, ?_, ?_⟩
      · show _ ∈ (db_update_field _ _ _ _).rows
        rw [hrows2]
        exact List.mem_append_right _ (List.mem_singleton.mpr rfl)
      · rw [dGet_dSet_ne _ (by decide), dGet_dSet_self]
      · exact dGet_dSet_self _ _ _
  · intro payloads
    induction payloads with
    | nil => intro row; rfl
    | cons p rest ih =>
      intro row
      show dGet (rest.foldl (fun r p => edit_question p r) (edit_question p row))
        "question_base_id" = _
      rw [ih (edit_question p row), edit_question_base]

/-- Witness for C7: inserting into a fresh database yields a row whose
`question_base_id` equals its id 1, and a PATCH edit of the stem leaves
`question_base_id` untouched. -/
theorem claim_C7_base_identity_witness :
    (∃ r ∈ (insert_question dbEmpty [] 2).1.rows,
      dGet r "id" = some (Json.int 1) ∧
      dGet r "question_base_id" = some (Json.int 1)) ∧
    dGet ([[("question_stem", Json.str "new stem")]].foldl
        (fun r p => edit_question p r) [("question_base_id", Json.int 1)])
      "question_base_id" = some (Json.int 1) := by
  have hwf : dbWF dbEmpty := by
    intro r hr
    simp [dbEmpty] at hr
  have h := claim_C7_base_identity dbEmpty [] [] 2 hwf
  exact ⟨h.1, (h.2.2.2 [[("question_stem", Json.str "new stem")]]
    [("question_base_id", Json.int 1)]).trans rfl⟩

/-- C1 (amended): persistence never validates `question_type` against the
closed enum.  The ingestion writer stores whatever value the fragment
declares (missing becomes null); the `addquestion` endpoint rejects only a
missing/empty `question_type` and stores any nonempty string verbatim.  The
enum appears only in the prompt sent to the LLM. -/
theorem claim_C1_type_enum (db : DB) (q payload : Dict) (fid : Int) (hwf : dbWF db) :
    (∃ r ∈ (insert_question db q fid).1.rows,
      dGet r "id" = some (Json.int (insert_question db q fid).2) ∧
      dGet r "question_type" = some (dGetD q "question_type" .null)) ∧
    (addquestion_type payload ≠ "" → addquestion_stem payload ≠ "" →
      ∃ db2 qid, addquestion db payload fid = Except.ok (db2, qid) ∧
        ∃ r ∈ db2.rows, dGet r "id" = some (Json.int qid) ∧
          dGet r "question_type" = some (Json.str (addquestion_type payload))) ∧
    (addquestion_type payload = "" →
      ∀ res, addquestion db payload fid ≠ Except.ok res) := by
  refine ⟨?_, ?_, ?_⟩
  · have hrows := db_update_after_insert db (insert_question_row q fid)
      "question_base_id" hwf
    refine ⟨dSet (dSet (insert_question_row q fid) "id" (Json.int db.nextId))
      "question_base_id" (Json.int db.nextId), ?_, ?_, ?_⟩
    · show _ ∈ (db_update_field _ _ _ _).rows
      rw [hrows]
      exact List.mem_append_right _ (List.mem_singleton.mpr rfl)
    · rw [dGet_dSet_ne _ (by decide), dGet_dSet_self]
      rfl
    · rw [dGet_dSet_ne _ (by decide), dGet_dSet_ne _ (by decide)]
      rfl
  · intro h1 h2
    refine ⟨db_update_field (db_insert db (addquestion_row payload fid)).1
        (db_insert db (addquestion_row payload fid)).2 "question_base_id"
        (Json.int (db_insert db (addquestion_row payload fid)).2),
      db.nextId, ?_, ?_⟩
    · rw [addquestion, if_neg h1, if_neg h2]
      rfl
    · have hrows2 := db_update_after_insert db (addquestion_row payload fid)
        "question_base_id" hwf
      refine ⟨dSet (dSet (addquestion_row payload fid) "id" (Json.int db.nextId))
        "question_base_id" (Json.int db.nextId), ?_, ?_, ?_⟩
      · show _ ∈ (db_update_field _ _ _ _).rows
        rw [hrows2]
        exact List.mem_append_right _ (List.mem_singleton.mpr rfl)
      · rw [dGet_dSet_ne _ (by decide), dGet_dSet_self]
      · rw [dGet_dSet_ne _ (by decide), dGet_dSet_ne _ (by decide)]
        rfl
  · intro h1 res
    rw [addquestion, if_pos h1]
    exact fun hh => Except.noConfusion hh

/-- Witness for C1's amended theorem: a type outside the enum is accepted
end to end by the writer. -/
theorem claim_C1_type_enum_witness :
    ∃ r ∈ (insert_question dbEmpty [("question_type", Json.str "riddle")] 3).1.rows,
      dGet r "id" = some (Json.int 1) ∧
      dGet r "question_type" = some (Json.str "riddle") := by
  have hwf : dbWF dbEmpty := by
    intro r hr
    simp [dbEmpty] at hr
  exact (claim_C1_type_enum dbEmpty [("question_type", Json.str "riddle")] [] 3 hwf).1

/-- Counterexample for C1: a fragment declaring `question_type = "essay"` —
not in the closed enum — is silently persisted by the ingestion writer: the
insert succeeds and the stored row carries the invalid type verbatim, with
no rejection or flagging anywhere. -/
theorem claim_C1_type_enum_cex :
    "essay" ∉ validQuestionTypes ∧
    (insert_question dbEmpty [("question_type", Json.str "essay")] 7).1.rows.length = 1 ∧
    dGet ((insert_question dbEmpty [("question_type", Json.str "essay")] 7).1.rows.headD [])
      "question_type" = some (Json.str "essay") ∧
    dGet ((insert_question dbEmpty [("question_type", Json.str "essay")] 7).1.rows.headD [])
      "question_base_id" = some (Json.int 1) := by
  refine ⟨by decide, rfl, rfl, rfl⟩

/-! ### Claim C8: difficulty precedence -/

/-- C8: the effective difficulty exposed by the query API equals the manual
score whenever one is present — including the falsy-but-valid 0.0 — and
falls back to the model score exactly when the manual score is null. -/
theorem claim_C8_difficulty_precedence :
    (∀ (v : ℚ) (mo : Option ℚ), difficulty_level (some v) mo = some v) ∧
    (∀ mo : Option ℚ, difficulty_level none mo = mo) ∧
    (∀ (m mo : Option ℚ) (x : ℚ),
      difficulty_level m mo = some x ↔ (m = some x ∨ (m = none ∧ mo = some x))) ∧
    difficulty_level (some 0) (some (9 / 10)) = some 0 := by
  refine ⟨fun v mo => rfl, fun mo => rfl, ?_, rfl⟩
  intro m mo x
  cases m <;> simp [difficulty_level]

/-! ### Claim C9: fence stripping -/

theorem fence_eq : fence = [bq, bq, bq] := rfl

theorem isPrefixOf_eq_true_iff :
    ∀ (l₁ l₂ : List Char), l₁.isPrefixOf l₂ = true ↔ l₁ <+: l₂ := by
  intro l₁
  induction l₁ with
  | nil => intro l₂; simp [List.isPrefixOf]
  | cons a as ih =>
    intro l₂
    cases l₂ with
    | nil => simp [List.isPrefixOf]
    | cons b bs =>
      simp [List.isPrefixOf, List.cons_prefix_cons, ih, Bool.and_eq_true, beq_iff_eq]

theorem splitSeqGo_fuel (sep : List Char) (hsep : sep ≠ []) :
    ∀ (f : Nat) (s acc : List Char), s.length ≤ f →
      splitSeqGo sep f s acc = splitSeqGo sep s.length s acc := by
  intro f
  induction f using Nat.strong_induction_on with
  | _ f ih =>
    intro s acc hl
    match f, s with
    | 0, [] => rfl
    | _ + 1, [] => rfl
    | 0, c :: rest => simp at hl
    | f + 1, c :: rest =>
      have hsp : 0 < sep.length := List.length_pos.mpr hsep
      have hdrop : ((c :: rest).drop sep.length).length ≤ rest.length := by
        simp only [List.length_drop, List.length_cons]
        omega
      have hrest : rest.length ≤ f := by
        simpa using Nat.le_of_succ_le_succ hl
      simp only [splitSeqGo, List.length_cons]
      by_cases hc : sep.isPrefixOf (c :: rest) && !sep.isEmpty
      · rw [if_pos hc, if_pos hc,
          ih f (Nat.lt_succ_self f) _ [] (le_trans hdrop hrest),
          ih rest.length (Nat.lt_succ_of_le hrest) _ [] hdrop]
      · rw [if_neg hc, if_neg hc,
          ih f (Nat.lt_succ_self f) rest (c :: acc) hrest,
          ih rest.length (Nat.lt_succ_of_le hrest) rest (c :: acc) le_rfl]

theorem splitSeqGo_no_occur (sep : List Char) (hsep : sep ≠ []) :
    ∀ (m acc : List Char), ¬ sep <:+: m →
      splitSeqGo sep m.length m acc = [acc.reverse ++ m] := by
  intro m
  induction m with
  | nil => intro acc _; simp [splitSeqGo]
  | cons c rest ih =>
    intro acc hno
    have hpf : (sep.isPrefixOf (c :: rest) && !sep.isEmpty) = false := by
      have h1 : ¬ sep <+: (c :: rest) := fun hp => hno hp.isInfix
      have h2 : sep.isPrefixOf (c :: rest) = false := by
        rw [← Bool.not_eq_true]
        intro hh
        exact h1 ((isPrefixOf_eq_true_iff sep (c :: rest)).mp hh)
      simp [h2]
    show splitSeqGo sep (rest.length + 1) (c :: rest) acc = _
    simp only [splitSeqGo, hpf, Bool.false_eq_true, if_false]
    have hno2 : ¬ sep <:+: rest := fun hh => hno (hh.trans (List.suffix_cons c rest).isInfix)
    rw [splitSeqGo_fuel sep hsep rest.length rest (c :: acc) le_rfl, ih (c :: acc) hno2]
    simp

theorem splitSeqGo_match (sep : List Char) (hsep : sep ≠ []) :
    ∀ (m t acc : List Char),
      (∀ p q, m ++ sep ++ t = p ++ sep ++ q → m.length ≤ p.length) →
      splitSeqGo sep (m ++ sep ++ t).length (m ++ sep ++ t) acc
        = (acc.reverse ++ m) :: splitSeqGo sep t.length t [] := by
  intro m
  induction m with
  | nil =>
    intro t acc _
    simp only [List.nil_append]
    cases hsepeq : sep with
    | nil => exact absurd hsepeq hsep
    | cons d ds =>
      subst hsepeq
      show splitSeqGo (d :: ds) ((ds ++ t).length + 1) (d :: (ds ++ t)) acc = _
      have hcnd : ((d :: ds).isPrefixOf (d :: (ds ++ t)) && !(d :: ds).isEmpty) = true := by
        have h1 : (d :: ds).isPrefixOf ((d :: ds) ++ t) = true :=
          (isPrefixOf_eq_true_iff _ _).mpr (List.prefix_append _ _)
        simp only [List.cons_append] at h1
        simp [h1]
      simp only [splitSeqGo, hcnd, if_true]
      congr 1
      · simp
      · have hdrop : List.drop (d :: ds).length (d :: (ds ++ t)) = t := by
          simp only [List.length_cons, List.drop_succ_cons]
          exact List.drop_left ds t
        rw [hdrop]
        exact splitSeqGo_fuel (d :: ds) (by simp) (ds ++ t).length t []
          (by simp only [List.length_append]; omega)
  | cons c m' ih =>
    intro t acc H
    have hshape : (c :: m') ++ sep ++ t = c :: (m' ++ sep ++ t) := by simp
    rw [hshape]
    have h2 : sep.isPrefixOf (c :: (m' ++ sep ++ t)) = false := by
      rw [← Bool.not_eq_true]
      intro hh
      have hp := (isPrefixOf_eq_true_iff _ _).mp hh
      obtain ⟨q, hq⟩ := hp
      have hlen := H [] q (by simp at hq ⊢; exact hq.symm)
      simp at hlen
    have hpf : (sep.isPrefixOf (c :: (m' ++ sep ++ t)) && !sep.isEmpty) = false := by
      rw [h2]
      rfl
    show splitSeqGo sep ((m' ++ sep ++ t).length + 1) _ _ = _
    simp only [splitSeqGo, hpf, Bool.false_eq_true, if_false]
    have H' : ∀ p q, m' ++ sep ++ t = p ++ sep ++ q → m'.length ≤ p.length := by
      intro p q hpq
      have := H (c :: p) q (by simp [hpq])
      simpa using this
    rw [splitSeqGo_fuel sep hsep (m' ++ sep ++ t).length _ _ le_rfl, ih t (c :: acc) H']
    simp

theorem fence_no_early_match (X : List Char) (c : Char)
    (hinf : ¬ fence <:+: (X ++ [c])) (hc : c ≠ bq) :
    ∀ p q, (X ++ [c]) ++ fence = p ++ fence ++ q → (X ++ [c]).length ≤ p.length := by
  intro p q heq
  by_contra hlt
  push_neg at hlt
  have hk : p.length < X.length + 1 := by simpa using hlt
  set D : List Char := (X ++ [c]).drop p.length with hDdef
  have hdlen : D.length = X.length + 1 - p.length := by
    rw [hDdef]
    simp [List.length_drop]
  have hd1 : 1 ≤ D.length := by omega
  have hdropL : ((X ++ [c]) ++ fence).drop p.length = D ++ fence := by
    rw [List.drop_append_eq_append_drop]
    have h0 : p.length - (X ++ [c]).length = 0 := by
      simp only [List.length_append, List.length_singleton]
      omega
    rw [h0, List.drop_zero]
  have hdropR : (p ++ fence ++ q).drop p.length = fence ++ q := by
    rw [List.append_assoc, List.drop_left]
  have h3 : D ++ fence = fence ++ q := by
    rw [← hdropL, heq, hdropR]
  by_cases hbig : 3 ≤ D.length
  · have t1 : (D ++ fence).take 3 = D.take 3 := by
      rw [List.take_append_eq_append_take]
      have h0 : 3 - D.length = 0 := by omega
      rw [h0, List.take_zero, List.append_nil]
    have t2 : (fence ++ q).take 3 = fence := by
      rw [List.take_append_eq_append_take]
      have h0 : 3 - fence.length = 0 := by decide
      rw [h0, List.take_zero, List.append_nil]
      decide
    have htake : D.take 3 = fence := by
      rw [← t1, h3, t2]
    apply hinf
    have hsplitD : X ++ [c] = (X ++ [c]).take p.length ++ D := by
      rw [hDdef]
      exact (List.take_append_drop _ _).symm
    have hDf : D = fence ++ D.drop 3 := by
      rw [← htake]
      exact (List.take_append_drop 3 D).symm
    refine ⟨(X ++ [c]).take p.length, D.drop 3, ?_⟩
    conv_rhs => rw [hsplitD, hDf]
    simp
  · have hsmall : D.length ≤ 2 := by omega
    have t1 : (D ++ fence).take D.length = D := by
      rw [List.take_append_eq_append_take]
      have h0 : D.length - D.length = 0 := by omega
      rw [h0, List.take_zero, List.append_nil, List.take_length]
    have t2 : (fence ++ q).take D.length = fence.take D.length := by
      rw [List.take_append_eq_append_take]
      have h0 : D.length - fence.length = 0 := by
        have hf : fence.length = 3 := rfl
        omega
      rw [h0, List.take_zero, List.append_nil]
    have htake : D = List.take D.length fence :=
      t1.symm.trans ((congrArg (List.take D.length) h3).trans t2)
    have hlast : D.getLast? = some c := by
      have hDeq : D = X.drop p.length ++ [c] := by
        rw [hDdef, List.drop_append_eq_append_drop]
        have h0 : p.length - X.length = 0 := by omega
        rw [h0, List.drop_zero]
      rw [hDeq, List.getLast?_concat]
    have hcase : D.length = 1 ∨ D.length = 2 := by omega
    have hlast2 : (List.take D.length fence).getLast? = some bq := by
      rcases hcase with h | h <;> rw [h] <;> rfl
    rw [htake, hlast2] at hlast
    exact hc (Option.some.inj hlast).symm

theorem pyStripL_fence_wrap (z : List Char) :
    pyStripL (fence ++ z ++ fence) = fence ++ z ++ fence := by
  rw [pyStripL]
  rw [show fence ++ z ++ fence = bq :: ([bq, bq] ++ z ++ fence) from by simp [fence_eq]]
  rw [List.dropWhile_cons, if_neg (by decide)]
  rw [show bq :: ([bq, bq] ++ z ++ fence)
      = (bq :: ([bq, bq] ++ z ++ [bq, bq])) ++ [bq] from by simp [fence_eq]]
  rw [List.rdropWhile_concat_neg _ _ bq (by decide)]

theorem json_tag_rstrip :
    ∀ t : List Char, "json".data <+: ("json".data ++ t).rdropWhile isPyWs := by
  intro t
  induction t using List.reverseRecOn with
  | nil =>
    rw [List.append_nil]
    have h : List.rdropWhile isPyWs "json".data = "json".data := by
      rw [List.rdropWhile_eq_self_iff]
      intro hl
      have hg : "json".data.getLast hl = 'n' := rfl
      rw [hg]
      decide
    rw [h]
  | append_singleton t x ih =>
    rw [show "json".data ++ (t ++ [x]) = ("json".data ++ t) ++ [x] from by simp]
    by_cases hx : isPyWs x
    · rw [List.rdropWhile_concat_pos _ _ x hx]
      exact ih
    · rw [List.rdropWhile_concat_neg _ _ x hx]
      exact (List.prefix_append "json".data t).trans
        (List.prefix_append ("json".data ++ t) [x])

theorem modifyHead_append_left (f : List Char → List Char) (xs ys : List (List Char))
    (h : xs ≠ []) : (xs ++ ys).modifyHead f = xs.modifyHead f ++ ys := by
  cases xs with
  | nil => exact absurd rfl h
  | cons a l => rfl

theorem splitOn_concat_sep (x : Char) :
    ∀ l : List Char, (l ++ [x]).splitOn x = l.splitOn x ++ [[]] := by
  intro l
  induction l with
  | nil =>
    show ([] ++ [x]).splitOn x = _
    simp [List.splitOn, List.splitOnP_cons, List.splitOnP_nil]
  | cons a l ih =>
    show (a :: (l ++ [x])).splitOn x = _
    simp only [List.splitOn] at ih ⊢
    rw [List.splitOnP_cons, List.splitOnP_cons]
    by_cases hax : (a == x) = true
    · rw [if_pos hax, if_pos hax, ih]
      rfl
    · rw [if_neg hax, if_neg hax, ih,
        modifyHead_append_left _ _ _ (List.splitOnP_ne_nil _ l)]

theorem pySplitlines_inner (b : List Char) :
    pySplitlines ("json".data ++ '\n' :: (b ++ ['\n'])) = "json".data :: b.splitOn '\n' := by
  have hshape : "json".data ++ '\n' :: (b ++ ['\n'])
      = ("json".data ++ '\n' :: b) ++ ['\n'] := by simp
  have hempty : ("json".data ++ '\n' :: (b ++ ['\n'])).isEmpty = false := rfl
  have hlast : ("json".data ++ '\n' :: (b ++ ['\n'])).getLast? = some '\n' := by
    rw [hshape, List.getLast?_concat]
  have hsplitOn : ("json".data ++ '\n' :: (b ++ ['\n'])).splitOn '\n'
      = "json".data :: (b.splitOn '\n' ++ [[]]) := by
    simp only [List.splitOn]
    rw [List.splitOnP_first _ _ (by decide) '\n' (by decide)]
    congr 1
    have h1 := splitOn_concat_sep '\n' b
    simpa [List.splitOn] using h1
  rw [pySplitlines, hempty]
  simp only [Bool.false_eq_true, if_false, hlast, if_pos]
  rw [hsplitOn, List.dropLast_cons_of_ne_nil (by simp), List.dropLast_concat]

theorem sanitizeL_fenced_json (b : List Char)
    (hfence : ¬ fence <:+: ("json".data ++ '\n' :: (b ++ ['\n']))) :
    sanitizeL (fence ++ ("json".data ++ '\n' :: (b ++ ['\n'])) ++ fence) = pyStripL b := by
  have hshape : "json".data ++ '\n' :: (b ++ ['\n'])
      = ("json".data ++ '\n' :: b) ++ ['\n'] := by simp
  have hstrip := pyStripL_fence_wrap ("json".data ++ '\n' :: (b ++ ['\n']))
  have hH : ∀ p q : List Char,
      ("json".data ++ '\n' :: (b ++ ['\n'])) ++ fence ++ [] = p ++ fence ++ q →
      ("json".data ++ '\n' :: (b ++ ['\n'])).length ≤ p.length := by
    intro p q hpq
    have hpq2 : (("json".data ++ '\n' :: b) ++ ['\n']) ++ fence = p ++ fence ++ q := by
      rw [← hshape]
      simpa using hpq
    have h0 := fence_no_early_match ("json".data ++ '\n' :: b) '\n'
      (by rw [← hshape]; exact hfence) (by decide) p q hpq2
    rw [hshape]
    exact h0
  have hsplit : pySplit
      (fence ++ ("json".data ++ '\n' :: (b ++ ['\n'])) ++ fence) fence
      = [[], "json".data ++ '\n' :: (b ++ ['\n']), []] := by
    have hw : fence ++ ("json".data ++ '\n' :: (b ++ ['\n'])) ++ fence
        = [] ++ fence ++ (("json".data ++ '\n' :: (b ++ ['\n'])) ++ fence) := by simp
    rw [pySplit, hw]
    rw [splitSeqGo_match fence (by decide) [] _ [] (fun p q _ => Nat.zero_le _)]
    have ht : ("json".data ++ '\n' :: (b ++ ['\n'])) ++ fence
        = ("json".data ++ '\n' :: (b ++ ['\n'])) ++ fence ++ [] := by simp
    rw [ht]
    rw [splitSeqGo_match fence (by decide) _ [] [] hH]
    simp [splitSeqGo]
  have hpre : fence.isPrefixOf
      (fence ++ ("json".data ++ '\n' :: (b ++ ['\n'])) ++ fence) = true := by
    refine (isPrefixOf_eq_true_iff _ _).mpr
      ⟨("json".data ++ '\n' :: (b ++ ['\n'])) ++ fence, ?_⟩
    simp
  have hdw : List.dropWhile isPyWs ("json".data ++ '\n' :: (b ++ ['\n']))
      = "json".data ++ '\n' :: (b ++ ['\n']) := rfl
  have hjson : "json".data.isPrefixOf
      (pyStripL ("json".data ++ '\n' :: (b ++ ['\n']))) = true := by
    refine (isPrefixOf_eq_true_iff _ _).mpr ?_
    rw [pyStripL, hdw]
    exact json_tag_rstrip ('\n' :: (b ++ ['\n']))
  simp only [sanitizeL, hstrip, hpre, if_true, hsplit]
  norm_num
  have hcond : ['j', 's', 'o', 'n'] <+: pyStripL ('j' :: 's' :: 'o' :: 'n' :: '\n' :: (b ++ ['\n'])) :=
    (isPrefixOf_eq_true_iff _ _).mp hjson
  rw [if_pos hcond]
  show pyStripL
    (['\n'].intercalate (pySplitlines ("json".data ++ '\n' :: (b ++ ['\n']))).tail) = pyStripL b
  rw [pySplitlines_inner, List.tail_cons, List.intercalate_splitOn]

/-- C9: an LLM response fenced as three backticks + `json` line + body +
newline + closing fence sanitizes to the (stripped) body, so any
whitespace-insensitive JSON parser accepts the sanitized output exactly when
it accepts the body — in particular a fenced JSON array parses successfully;
and a parsed value that is a single object rather than an array is wrapped
into a one-element array before accumulation.  Hypotheses: the body contains
no triple-backtick fence (otherwise it would terminate the fence early) and
no line-break character other than `\n` (the modelling boundary of
`pySplitlines`). -/
theorem claim_C9_sanitize (b : String)
    (hfence : ¬ fence <:+: ("json".data ++ '\n' :: (b.data ++ ['\n'])))
    (_hbr : ∀ c ∈ b.data, c ∉ pyOtherLineBreaks) :
    sanitize_output ("```json\n" ++ b ++ "\n```") = pyStrip b ∧
    (∀ parse : String → Option Json, (∀ s, parse (pyStrip s) = parse s) →
      parse (sanitize_output ("```json\n" ++ b ++ "\n```")) = parse b) ∧
    (∀ j : Json, (∀ xs, j ≠ Json.arr xs) → toQuestionList j = [j]) ∧
    (∀ xs : List Json, toQuestionList (Json.arr xs) = xs) := by
  have hdata : ("```json\n" ++ b ++ "\n```").data
      = fence ++ ("json".data ++ '\n' :: (b.data ++ ['\n'])) ++ fence := by
    rw [String.data_append, String.data_append]
    simp [fence]
  have h1 : sanitize_output ("```json\n" ++ b ++ "\n```") = pyStrip b := by
    show String.mk (sanitizeL ("```json\n" ++ b ++ "\n```").data) = String.mk (pyStripL b.data)
    rw [hdata, sanitizeL_fenced_json b.data hfence]
  refine ⟨h1, ?_, ?_, ?_⟩
  · intro parse hp
    rw [h1]
    exact hp b
  · intro j hj
    match j, hj with
    | .null, _ => rfl
    | .bool v, _ => rfl
    | .int n, _ => rfl
    | .num q, _ => rfl
    | .str s, _ => rfl
    | .obj f, _ => rfl
    | .arr xs, hj => exact absurd rfl (hj xs)
  · intro xs
    rfl

/-- Witness for C9: the concrete fenced array response of the claim. -/
theorem claim_C9_sanitize_witness :
    sanitize_output ("```json\n" ++ "[1, 2]" ++ "\n```") = pyStrip "[1, 2]" ∧
    pyStrip "[1, 2]" = "[1, 2]" := by
  refine ⟨(claim_C9_sanitize "[1, 2]" ?_ ?_).1, by decide⟩
  · decide
  · decide

end QuizBank
